import Mathlib

/-!
Verification of the quadtree implementation in src/quadtree/quadtree.py.

The embedding below is a shallow model of the Python source. Scalar
coordinates become rationals; the Python point arithmetic used by the
claims is exact on the dyadic values involved, so the rational model is
faithful. The Node class becomes an inductive tree whose four optional
child slots mirror the children list of the source; the class-level
QuadTree state (maxdepth, leaves, allnodes) becomes an explicit record
threaded through traverse. Since the source subdivision can recurse
without bound for adversarial predicates, subdivide takes an explicit
fuel argument; every claim about a finished build is stated with enough
fuel for that build, and fuel never changes the result once it exceeds
the recursion depth actually used.
-/

namespace quadtree

/-- Axis-aligned rectangle, listing min-x, min-y, max-x, max-y exactly as
the four-tuple rect of the source (the source names the second axis z). -/
structure Rect where
  x0 : ℚ
  z0 : ℚ
  x1 : ℚ
  z1 : ℚ
  deriving DecidableEq

/-- The three classification tags of Node: ROOT = 0, BRANCH = 1, LEAF = 2. -/
inductive NodeType where
  | ROOT
  | BRANCH
  | LEAF
  deriving DecidableEq

/-- A node of the quadtree: rectangle, depth, classification tag and four
optional child slots, mirroring self.rect, self.depth, self.type and the
four-element children list of the Python Node class. The parent
back-reference of the source is used only to compute depth and type at
construction time, so the model stores the computed values instead. -/
inductive Node : Type where
  | mk : Rect → Nat → NodeType → Option Node → Option Node → Option Node → Option Node → Node

/-- The rectangle of a node. -/
def Node.rect : Node → Rect
  | .mk r _ _ _ _ _ _ => r

/-- The depth of a node. -/
def Node.depth : Node → Nat
  | .mk _ d _ _ _ _ _ => d

/-- The classification tag of a node (self.type in the source). -/
def Node.ty : Node → NodeType
  | .mk _ _ t _ _ _ _ => t

/-- The four child slots of a node, in slot order 0, 1, 2, 3. -/
def Node.children : Node → List (Option Node)
  | .mk _ _ _ c0 c1 c2 c3 => [c0, c1, c2, c3]

/-- The present children of a node, in slot order. -/
def presentChildren (nd : Node) : List Node :=
  nd.children.filterMap id

/-- Node construction, from Node.__init__ of the source: depth is 0 for a
missing parent and parent depth plus one otherwise; the tag is ROOT for a
missing parent, LEAF when the rectangle width x1 - x0 is at most the
minimum size, BRANCH otherwise; all four child slots start absent. Only
the depth of the parent matters, so the model passes it as an optional
natural number. -/
def mkNode (ms : ℚ) (parentDepth : Option Nat) (rect : Rect) : Node :=
  let depth : Nat := match parentDepth with
    | none => 0
    | some d => d + 1
  let ty : NodeType := match parentDepth with
    | none => NodeType.ROOT
    | some _ => if rect.x1 - rect.x0 ≤ ms then NodeType.LEAF else NodeType.BRANCH
  Node.mk rect depth ty none none none none

/-- Recursive subdivision, from Node.subdivide of the source: a LEAF node
is left untouched; otherwise the rectangle is split at half width h into
the four quadrants bottom-left, top-left, top-right, bottom-right (slot
order 0..3), and each quadrant whose rectangle spans a feature gets a
fresh child node which is recursively subdivided; a quadrant without a
feature keeps its previous slot value (always absent in a build). The
fuel argument bounds the recursion depth, which the source leaves
unbounded. -/
def subdivide (ms : ℚ) (spans : Rect → Bool) : Nat → Node → Node
  | 0, nd => nd
  | fuel + 1, .mk r d t c0 c1 c2 c3 =>
    if t = NodeType.LEAF then .mk r d t c0 c1 c2 c3
    else
      let h := (r.x1 - r.x0) / 2
      let r0 : Rect := ⟨r.x0, r.z0, r.x0 + h, r.z0 + h⟩
      let r1 : Rect := ⟨r.x0, r.z0 + h, r.x0 + h, r.z1⟩
      let r2 : Rect := ⟨r.x0 + h, r.z0 + h, r.x1, r.z1⟩
      let r3 : Rect := ⟨r.x0 + h, r.z0, r.x1, r.z0 + h⟩
      let step : Rect → Option Node → Option Node := fun ri old =>
        if spans ri then some (subdivide ms spans fuel (mkNode ms (some d) ri)) else old
      .mk r d t (step r0 c0) (step r1 c1) (step r2 c2) (step r3 c3)

/-- Point containment test, from Node.contains of the source: true exactly
when both coordinates lie within the closed bounds of the rectangle. -/
def contains (nd : Node) (x z : ℚ) : Bool :=
  if x ≥ nd.rect.x0 ∧ x ≤ nd.rect.x1 ∧ z ≥ nd.rect.z0 ∧ z ≤ nd.rect.z1 then true
  else false

/-- The default feature predicate of the source (spans_feature returns
False), so a default-configured node never subdivides past the root. -/
def spansFalse : Rect → Bool := fun _ => false

/-- A feature predicate reporting a feature everywhere. -/
def spansTrue : Rect → Bool := fun _ => true

/-- One slot step of the pruning loop: given the cumulative leaf count
accumulated so far and an optional pair of an already pruned child with
its returned count, produce the new slot value and the new cumulative
count. A present child is dropped exactly when the cumulative count
after adding its own count is still zero, reproducing the running
leafcount test of QuadTree.prune. -/
def pruneStep (acc : Nat) : Option (Node × Nat) → Option Node × Nat
  | none => (none, acc)
  | some (c, k) => (if acc + k = 0 then none else some c, acc + k)

/-- Post-order pruning, from QuadTree.prune of the source: a LEAF node is
returned unchanged with count 1; otherwise the four slots are processed
in order, each present child is pruned recursively, its count is added to
the running total, and the slot is cleared when the running total is
still zero at that iteration; the final total is returned. The source
collects such children in a removals list and clears them after the
loop, which yields the same slot-wise result because the nodes are
distinct objects and slots are never reordered. -/
def prune : Node → Node × Nat
  | .mk r d t c0 c1 c2 c3 =>
    if t = NodeType.LEAF then (.mk r d t c0 c1 c2 c3, 1)
    else
      let s0 := pruneStep 0 (match c0 with | none => none | some x => some (prune x))
      let s1 := pruneStep s0.2 (match c1 with | none => none | some x => some (prune x))
      let s2 := pruneStep s1.2 (match c2 with | none => none | some x => some (prune x))
      let s3 := pruneStep s2.2 (match c3 with | none => none | some x => some (prune x))
      (.mk r d t s0.1 s1.1 s2.1 s3.1, s3.2)

/-- Pruning lifted to an optional child slot. -/
def pruneMap : Option Node → Option (Node × Nat)
  | none => none
  | some x => some (prune x)

/-- The accumulating state of the tree builder, from the class attributes
of QuadTree: maxdepth (initial value 3), the list of leaves and the list
of all visited nodes. -/
structure QTState where
  maxdepth : Nat
  leaves : List Node
  allnodes : List Node

/-- The initial builder state: maxdepth 3 and empty node lists, matching
the class attribute initializers of QuadTree. -/
def initState : QTState := ⟨3, [], []⟩

/-- Pre-order traversal, from QuadTree.traverse of the source: append the
node to allnodes; if it is a LEAF, append it to leaves and raise maxdepth
when the node depth exceeds it; then recurse into each present child in
slot order. -/
def traverse : Node → QTState → QTState
  | .mk r d t c0 c1 c2 c3, st =>
    let nd := Node.mk r d t c0 c1 c2 c3
    let st1 : QTState := { st with allnodes := st.allnodes ++ [nd] }
    let st2 : QTState :=
      if t = NodeType.LEAF then
        { st1 with leaves := st1.leaves ++ [nd],
                   maxdepth := if nd.depth > st1.maxdepth then nd.depth else st1.maxdepth }
      else st1
    let st3 := match c0 with | none => st2 | some x => traverse x st2
    let st4 := match c1 with | none => st3 | some x => traverse x st3
    let st5 := match c2 with | none => st4 | some x => traverse x st4
    match c3 with | none => st5 | some x => traverse x st5

/-- The whole build, from QuadTree.__init__ of the source: set the minimum
size, subdivide the root node, prune the hierarchy, then traverse it into
the builder state. The pruned tree and the final state are returned. -/
def quadTree (ms : ℚ) (spans : Rect → Bool) (fuel : Nat) (rootnode : Node) :
    Node × QTState :=
  let t := subdivide ms spans fuel rootnode
  let pr := prune t
  (pr.1, traverse pr.1 initState)

/-- Pre-order listing of all nodes of a tree (every slot that is present):
the node itself, then the listings of the present children in slot order. -/
def preorder : Node → List Node
  | .mk r d t c0 c1 c2 c3 =>
    Node.mk r d t c0 c1 c2 c3 ::
      ((match c0 with | none => [] | some x => preorder x) ++
       ((match c1 with | none => [] | some x => preorder x) ++
        ((match c2 with | none => [] | some x => preorder x) ++
         (match c3 with | none => [] | some x => preorder x))))

/-- Pre-order listing lifted to an optional child slot. -/
def opre : Option Node → List Node
  | none => []
  | some x => preorder x

/-- The LEAF nodes of a tree, in pre-order. -/
def leafList : Node → List Node
  | .mk r d t c0 c1 c2 c3 =>
    (if t = NodeType.LEAF then [Node.mk r d t c0 c1 c2 c3] else []) ++
      ((match c0 with | none => [] | some x => leafList x) ++
       ((match c1 with | none => [] | some x => leafList x) ++
        ((match c2 with | none => [] | some x => leafList x) ++
         (match c3 with | none => [] | some x => leafList x))))

/-- The LEAF listing lifted to an optional child slot. -/
def oLeaf : Option Node → List Node
  | none => []
  | some x => leafList x

/-- The rectangles of all nodes of a tree, in pre-order. -/
def rects : Node → List Rect
  | .mk r _ _ c0 c1 c2 c3 =>
    r ::
      ((match c0 with | none => [] | some x => rects x) ++
       ((match c1 with | none => [] | some x => rects x) ++
        ((match c2 with | none => [] | some x => rects x) ++
         (match c3 with | none => [] | some x => rects x))))

/-- The rectangle listing lifted to an optional child slot. -/
def orects : Option Node → List Rect
  | none => []
  | some x => rects x

/-- Every rectangle constructed by a run of subdivide: a non-LEAF node
first builds all four quadrant rectangles of its local rects list, before
the feature predicate is consulted, so all four are collected whether or
not they span a feature; the quadrants that do span get a child node
(reusing the same rectangle) and the rectangles constructed by its
recursive subdivision are collected in turn. Together with the root
rectangle, which the caller constructs, this is every rectangle ever
constructed during a build. -/
def subdivideRects (ms : ℚ) (spans : Rect → Bool) : Nat → Node → List Rect
  | 0, _ => []
  | fuel + 1, .mk r d t _ _ _ _ =>
    if t = NodeType.LEAF then []
    else
      let h := (r.x1 - r.x0) / 2
      let r0 : Rect := ⟨r.x0, r.z0, r.x0 + h, r.z0 + h⟩
      let r1 : Rect := ⟨r.x0, r.z0 + h, r.x0 + h, r.z1⟩
      let r2 : Rect := ⟨r.x0 + h, r.z0 + h, r.x1, r.z1⟩
      let r3 : Rect := ⟨r.x0 + h, r.z0, r.x1, r.z0 + h⟩
      let step : Rect → List Rect := fun ri =>
        ri :: (if spans ri then subdivideRects ms spans fuel (mkNode ms (some d) ri) else [])
      step r0 ++ (step r1 ++ (step r2 ++ step r3))

/-- One quadrant of the rectangle collection: the quadrant rectangle
itself, followed by the rectangles of the recursive subdivision when the
quadrant spans a feature. -/
def rstep (ms : ℚ) (spans : Rect → Bool) (fuel : Nat) (d : Nat) (ri : Rect) : List Rect :=
  ri :: (if spans ri then subdivideRects ms spans fuel (mkNode ms (some d) ri) else [])

/-- A node is locally well formed when, if it is a LEAF, it has no present
children. The source never gives a LEAF node children: subdivision stops
at leaves and construction starts all slots absent. -/
def nodeOk (n : Node) : Bool :=
  !(n.ty = NodeType.LEAF) || (presentChildren n).isEmpty

/-- A tree is well formed when every node of it is locally well formed. -/
def wfB : Node → Bool
  | .mk r d t c0 c1 c2 c3 =>
    nodeOk (.mk r d t c0 c1 c2 c3) &&
      ((match c0 with | none => true | some x => wfB x) &&
       ((match c1 with | none => true | some x => wfB x) &&
        ((match c2 with | none => true | some x => wfB x) &&
         (match c3 with | none => true | some x => wfB x))))

/-- Well-formedness lifted to an optional child slot. -/
def oWf : Option Node → Bool
  | none => true
  | some x => wfB x

/-- Orientation invariant of a rectangle: min coordinates at most max
coordinates on both axes. -/
def Rect.Oriented (r : Rect) : Prop :=
  r.x0 ≤ r.x1 ∧ r.z0 ≤ r.z1

instance (r : Rect) : Decidable r.Oriented := by
  unfold Rect.Oriented; infer_instance

/-- A rectangle is square when its width equals its height. -/
def Rect.Square (r : Rect) : Prop :=
  r.x1 - r.x0 = r.z1 - r.z0

instance (r : Rect) : Decidable r.Square := by
  unfold Rect.Square; infer_instance

/-- The leaf count returned by prune for an optional child slot. -/
def oPruneCount : Option Node → Nat
  | none => 0
  | some x => (prune x).2

/-- Traversal lifted to an optional child slot. -/
def otrav (o : Option Node) (st : QTState) : QTState :=
  match o with
  | none => st
  | some x => traverse x st

/-- One quadrant slot of a subdivision step: a fresh subdivided child when
the quadrant spans a feature, the previous slot value otherwise. -/
def sstep (ms : ℚ) (spans : Rect → Bool) (fuel : Nat) (d : Nat)
    (ri : Rect) (old : Option Node) : Option Node :=
  if spans ri then some (subdivide ms spans fuel (mkNode ms (some d) ri)) else old

/-- The child in slot i of a node. -/
def Node.child : Node → Fin 4 → Option Node
  | .mk _ _ _ c0 _ _ _, ⟨0, _⟩ => c0
  | .mk _ _ _ _ c1 _ _, ⟨1, _⟩ => c1
  | .mk _ _ _ _ _ c2 _, ⟨2, _⟩ => c2
  | .mk _ _ _ _ _ _ c3, ⟨3, _⟩ => c3

/-- The cumulative leaf count accumulated over the child slots of a node,
in slot order, up to and including slot i: absent slots contribute zero. -/
def cumLeaf (nd : Node) (i : Fin 4) : Nat :=
  ((nd.children.take (i.1 + 1)).map (fun o => (oLeaf o).length)).sum

/-- A feature predicate reporting a feature only for rectangles that touch
the origin (both closed coordinate ranges contain zero). -/
def spansOrigin : Rect → Bool :=
  fun r => decide (r.x0 ≤ 0 ∧ 0 ≤ r.x1 ∧ r.z0 ≤ 0 ∧ 0 ≤ r.z1)

/-- A feature predicate reporting a feature exactly for three chosen
rectangles, used to build a tree whose pruning keeps a leafless branch. -/
def spansThree : Rect → Bool :=
  fun r => decide (r = ⟨0,0,8,8⟩ ∨ r = ⟨0,0,4,4⟩ ∨ r = ⟨8,0,16,8⟩)

/-! ### Unfolding and structural lemmas -/

/-- Unfolding of prune on a LEAF node. -/
theorem prune_leaf {r : Rect} {d : Nat} {t : NodeType} {c0 c1 c2 c3 : Option Node}
    (h : t = NodeType.LEAF) :
    prune (.mk r d t c0 c1 c2 c3) = (.mk r d t c0 c1 c2 c3, 1) := by
  subst h
  cases c0 <;> cases c1 <;> cases c2 <;> cases c3 <;> rfl

/-- Unfolding of prune on a non-LEAF node, phrased with the pruneStep and
pruneMap helpers. -/
theorem prune_mk (r : Rect) (d : Nat) (t : NodeType) (c0 c1 c2 c3 : Option Node)
    (h : ¬ t = NodeType.LEAF) :
    prune (.mk r d t c0 c1 c2 c3) =
      (let s0 := pruneStep 0 (pruneMap c0)
       let s1 := pruneStep s0.2 (pruneMap c1)
       let s2 := pruneStep s1.2 (pruneMap c2)
       let s3 := pruneStep s2.2 (pruneMap c3)
       (.mk r d t s0.1 s1.1 s2.1 s3.1, s3.2)) := by
  cases c0 <;> cases c1 <;> cases c2 <;> cases c3 <;> simp [prune, pruneMap, h]

/-- Unfolding of preorder, phrased with the opre helper. -/
theorem preorder_mk (r : Rect) (d : Nat) (t : NodeType) (c0 c1 c2 c3 : Option Node) :
    preorder (.mk r d t c0 c1 c2 c3) =
      Node.mk r d t c0 c1 c2 c3 :: (opre c0 ++ (opre c1 ++ (opre c2 ++ opre c3))) := by
  cases c0 <;> cases c1 <;> cases c2 <;> cases c3 <;> rfl

/-- Unfolding of leafList, phrased with the oLeaf helper. -/
theorem leafList_mk (r : Rect) (d : Nat) (t : NodeType) (c0 c1 c2 c3 : Option Node) :
    leafList (.mk r d t c0 c1 c2 c3) =
      (if t = NodeType.LEAF then [Node.mk r d t c0 c1 c2 c3] else []) ++
        (oLeaf c0 ++ (oLeaf c1 ++ (oLeaf c2 ++ oLeaf c3))) := by
  cases c0 <;> cases c1 <;> cases c2 <;> cases c3 <;> rfl

/-- Unfolding of rects, phrased with the orects helper. -/
theorem rects_mk (r : Rect) (d : Nat) (t : NodeType) (c0 c1 c2 c3 : Option Node) :
    rects (.mk r d t c0 c1 c2 c3) =
      r :: (orects c0 ++ (orects c1 ++ (orects c2 ++ orects c3))) := by
  cases c0 <;> cases c1 <;> cases c2 <;> cases c3 <;> rfl

/-- Unfolding of wfB, phrased with the oWf helper. -/
theorem wfB_mk (r : Rect) (d : Nat) (t : NodeType) (c0 c1 c2 c3 : Option Node) :
    wfB (.mk r d t c0 c1 c2 c3) =
      (nodeOk (.mk r d t c0 c1 c2 c3) &&
        (oWf c0 && (oWf c1 && (oWf c2 && oWf c3)))) := by
  cases c0 <;> cases c1 <;> cases c2 <;> cases c3 <;> rfl


/-- The count side of one pruning slot step. -/
theorem pruneStep_snd (acc : Nat) (o : Option Node) :
    (pruneStep acc (pruneMap o)).2 = acc + oPruneCount o := by
  cases o <;> simp [pruneStep, pruneMap, oPruneCount]

/-- The slot side of one pruning slot step: the result is absent exactly
when the slot was absent already or the cumulative count after adding the
count of this child is zero. -/
theorem pruneStep_fst_none (acc : Nat) (o : Option Node) :
    ((pruneStep acc (pruneMap o)).1 = none) ↔ (o = none ∨ acc + oPruneCount o = 0) := by
  cases o with
  | none => simp [pruneStep, pruneMap]
  | some x =>
    simp only [pruneStep, pruneMap, oPruneCount]
    split <;> simp_all

/-- A subtree whose prune count is zero contains no LEAF node at all. -/
theorem prune_count_zero : ∀ nd : Node, (prune nd).2 = 0 → leafList nd = []
  | .mk r d t c0 c1 c2 c3 => by
    intro h
    by_cases ht : t = NodeType.LEAF
    · rw [prune_leaf ht] at h
      exact absurd h (by simp)
    · rw [prune_mk r d t c0 c1 c2 c3 ht] at h
      simp only [pruneStep_snd] at h
      have h0 : oPruneCount c0 = 0 := by omega
      have h1 : oPruneCount c1 = 0 := by omega
      have h2 : oPruneCount c2 = 0 := by omega
      have h3 : oPruneCount c3 = 0 := by omega
      rw [leafList_mk]
      have e0 : oLeaf c0 = [] := by
        cases c0 with
        | none => rfl
        | some x => exact prune_count_zero x h0
      have e1 : oLeaf c1 = [] := by
        cases c1 with
        | none => rfl
        | some x => exact prune_count_zero x h1
      have e2 : oLeaf c2 = [] := by
        cases c2 with
        | none => rfl
        | some x => exact prune_count_zero x h2
      have e3 : oLeaf c3 = [] := by
        cases c3 with
        | none => rfl
        | some x => exact prune_count_zero x h3
      simp [ht, e0, e1, e2, e3]

/-- One pruning slot step never loses a LEAF node: the leaves below the
resulting slot are exactly the leaves below the original slot. The
hypothesis feeds in the recursive fact for the child of the slot. -/
theorem pruneStep_oLeaf (acc : Nat) (o : Option Node)
    (ih : ∀ x, o = some x → leafList (prune x).1 = leafList x) :
    oLeaf (pruneStep acc (pruneMap o)).1 = oLeaf o := by
  cases o with
  | none => rfl
  | some x =>
    simp only [pruneStep, pruneMap]
    split
    · rename_i h
      have hx : (prune x).2 = 0 := by omega
      simp [oLeaf, prune_count_zero x hx]
    · simp [oLeaf, ih x rfl]

/-- Pruning preserves the pre-order list of LEAF nodes of every tree. -/
theorem prune_leafList : ∀ nd : Node, leafList (prune nd).1 = leafList nd
  | .mk r d t c0 c1 c2 c3 => by
    by_cases ht : t = NodeType.LEAF
    · rw [prune_leaf ht]
    · rw [prune_mk r d t c0 c1 c2 c3 ht]
      simp only
      rw [leafList_mk, leafList_mk]
      have e0 := pruneStep_oLeaf 0 c0
        (fun x hx => by cases hx; exact prune_leafList x)
      have e1 := pruneStep_oLeaf (pruneStep 0 (pruneMap c0)).2 c1
        (fun x hx => by cases hx; exact prune_leafList x)
      have e2 := pruneStep_oLeaf (pruneStep (pruneStep 0 (pruneMap c0)).2 (pruneMap c1)).2 c2
        (fun x hx => by cases hx; exact prune_leafList x)
      have e3 := pruneStep_oLeaf
        (pruneStep (pruneStep (pruneStep 0 (pruneMap c0)).2 (pruneMap c1)).2 (pruneMap c2)).2 c3
        (fun x hx => by cases hx; exact prune_leafList x)
      rw [e0, e1, e2, e3]
      simp [ht]

/-- The present children of a literal node are empty exactly when all four
slots are absent. -/
theorem presentChildren_empty (r : Rect) (d : Nat) (t : NodeType)
    (c0 c1 c2 c3 : Option Node) :
    ((presentChildren (.mk r d t c0 c1 c2 c3)).isEmpty = true) ↔
      (c0 = none ∧ c1 = none ∧ c2 = none ∧ c3 = none) := by
  cases c0 <;> cases c1 <;> cases c2 <;> cases c3 <;>
    simp [presentChildren, Node.children]

/-- On a well-formed tree, the count returned by prune is exactly the
number of LEAF nodes of the tree. -/
theorem prune_count : ∀ nd : Node, wfB nd = true → (prune nd).2 = (leafList nd).length
  | .mk r d t c0 c1 c2 c3 => by
    intro hwf
    rw [wfB_mk] at hwf
    simp only [Bool.and_eq_true] at hwf
    obtain ⟨hok, hw0, hw1, hw2, hw3⟩ := hwf
    by_cases ht : t = NodeType.LEAF
    · rw [prune_leaf ht]
      have hempty : (presentChildren (.mk r d t c0 c1 c2 c3)).isEmpty = true := by
        simp only [nodeOk, Node.ty, ht, Bool.or_eq_true] at hok
        rcases hok with hok | hok
        · simp at hok
        · exact hok
      rw [presentChildren_empty] at hempty
      obtain ⟨h0, h1, h2, h3⟩ := hempty
      subst h0; subst h1; subst h2; subst h3
      simp [leafList_mk, ht, oLeaf]
    · rw [prune_mk r d t c0 c1 c2 c3 ht]
      simp only [pruneStep_snd]
      have e0 : oPruneCount c0 = (oLeaf c0).length := by
        cases c0 with
        | none => rfl
        | some x => exact prune_count x hw0
      have e1 : oPruneCount c1 = (oLeaf c1).length := by
        cases c1 with
        | none => rfl
        | some x => exact prune_count x hw1
      have e2 : oPruneCount c2 = (oLeaf c2).length := by
        cases c2 with
        | none => rfl
        | some x => exact prune_count x hw2
      have e3 : oPruneCount c3 = (oLeaf c3).length := by
        cases c3 with
        | none => rfl
        | some x => exact prune_count x hw3
      rw [leafList_mk]
      simp [ht, e0, e1, e2, e3]
      omega


/-- Unfolding of traverse, phrased with the otrav helper: the node is
appended to allnodes, a LEAF is appended to leaves with the maxdepth
update, then the four child slots are traversed in order. -/
theorem traverse_mk (r : Rect) (d : Nat) (t : NodeType) (c0 c1 c2 c3 : Option Node)
    (st : QTState) :
    traverse (.mk r d t c0 c1 c2 c3) st =
      (let nd := Node.mk r d t c0 c1 c2 c3
       let st1 : QTState := { st with allnodes := st.allnodes ++ [nd] }
       let st2 : QTState :=
         if t = NodeType.LEAF then
           { st1 with leaves := st1.leaves ++ [nd],
                      maxdepth := if nd.depth > st1.maxdepth then nd.depth else st1.maxdepth }
         else st1
       otrav c3 (otrav c2 (otrav c1 (otrav c0 st2)))) := by
  cases c0 <;> cases c1 <;> cases c2 <;> cases c3 <;> rfl

/-- Traversal only appends: allnodes grows by the pre-order listing of the
tree and leaves grows by its LEAF listing, whatever the starting state. -/
theorem traverse_spec : ∀ (nd : Node) (st : QTState),
    (traverse nd st).allnodes = st.allnodes ++ preorder nd ∧
      (traverse nd st).leaves = st.leaves ++ leafList nd
  | .mk r d t c0 c1 c2 c3, st => by
    rw [traverse_mk]
    simp only
    have hstep :
        ∀ (o : Option Node) (st0 : QTState),
          (∀ x, o = some x →
            ((traverse x st0).allnodes = st0.allnodes ++ preorder x ∧
             (traverse x st0).leaves = st0.leaves ++ leafList x)) →
          (otrav o st0).allnodes = st0.allnodes ++ opre o ∧
            (otrav o st0).leaves = st0.leaves ++ oLeaf o := by
      intro o st0 ih
      cases o with
      | none => simp [otrav, opre, oLeaf]
      | some x => simpa [otrav, opre, oLeaf] using ih x rfl
    set nd := Node.mk r d t c0 c1 c2 c3 with hnd
    set st1 : QTState := { st with allnodes := st.allnodes ++ [nd] } with hst1
    set st2 : QTState :=
      if t = NodeType.LEAF then
        { st1 with leaves := st1.leaves ++ [nd],
                   maxdepth := if nd.depth > st1.maxdepth then nd.depth else st1.maxdepth }
      else st1 with hst2
    have h2a : st2.allnodes = st.allnodes ++ [nd] := by
      rw [hst2]; split <;> simp [hst1]
    have h2l : st2.leaves = st.leaves ++ (if t = NodeType.LEAF then [nd] else []) := by
      rw [hst2]; split <;> simp [hst1]
    have h0 := hstep c0 st2 (fun x hx => by cases hx; exact traverse_spec x st2)
    have h1 := hstep c1 (otrav c0 st2)
      (fun x hx => by cases hx; exact traverse_spec x (otrav c0 st2))
    have h2 := hstep c2 (otrav c1 (otrav c0 st2))
      (fun x hx => by cases hx; exact traverse_spec x (otrav c1 (otrav c0 st2)))
    have h3 := hstep c3 (otrav c2 (otrav c1 (otrav c0 st2)))
      (fun x hx => by cases hx; exact traverse_spec x (otrav c2 (otrav c1 (otrav c0 st2))))
    constructor
    · rw [h3.1, h2.1, h1.1, h0.1, h2a, preorder_mk]
      simp
    · rw [h3.2, h2.2, h1.2, h0.2, h2l, leafList_mk]
      simp


/-- Unfolding of subdivide on a LEAF node: the node is untouched. -/
theorem subdivide_leaf (ms : ℚ) (spans : Rect → Bool) (fuel : Nat)
    {r : Rect} {d : Nat} {t : NodeType} {c0 c1 c2 c3 : Option Node}
    (h : t = NodeType.LEAF) :
    subdivide ms spans (fuel + 1) (.mk r d t c0 c1 c2 c3) = .mk r d t c0 c1 c2 c3 := by
  subst h; rfl

/-- Unfolding of subdivide on a non-LEAF node, phrased with sstep and the
four quadrant rectangles of the source in slot order. -/
theorem subdivide_mk (ms : ℚ) (spans : Rect → Bool) (fuel : Nat)
    (r : Rect) (d : Nat) (t : NodeType) (c0 c1 c2 c3 : Option Node)
    (h : ¬ t = NodeType.LEAF) :
    subdivide ms spans (fuel + 1) (.mk r d t c0 c1 c2 c3) =
      (let hw := (r.x1 - r.x0) / 2
       Node.mk r d t
        (sstep ms spans fuel d ⟨r.x0, r.z0, r.x0 + hw, r.z0 + hw⟩ c0)
        (sstep ms spans fuel d ⟨r.x0, r.z0 + hw, r.x0 + hw, r.z1⟩ c1)
        (sstep ms spans fuel d ⟨r.x0 + hw, r.z0 + hw, r.x1, r.z1⟩ c2)
        (sstep ms spans fuel d ⟨r.x0 + hw, r.z0, r.x1, r.z0 + hw⟩ c3)) := by
  simp [subdivide, h, sstep]

/-- A freshly constructed node is well formed: all slots start absent. -/
theorem wf_mkNode (ms : ℚ) (p : Option Nat) (r : Rect) :
    wfB (mkNode ms p r) = true := by
  cases p <;>
    simp [mkNode, wfB, nodeOk, presentChildren, Node.children, oWf]

/-- Subdivision preserves well-formedness: it never gives a LEAF node a
child, because the LEAF base case stops the recursion. -/
theorem wf_subdivide (ms : ℚ) (spans : Rect → Bool) :
    ∀ (fuel : Nat) (nd : Node), wfB nd = true → wfB (subdivide ms spans fuel nd) = true
  | 0, nd => fun h => h
  | fuel + 1, .mk r d t c0 c1 c2 c3 => by
    intro hwf
    by_cases ht : t = NodeType.LEAF
    · rw [subdivide_leaf ms spans fuel ht]
      exact hwf
    · rw [wfB_mk] at hwf
      simp only [Bool.and_eq_true] at hwf
      obtain ⟨hok, hw0, hw1, hw2, hw3⟩ := hwf
      rw [subdivide_mk ms spans fuel r d t c0 c1 c2 c3 ht]
      simp only
      rw [wfB_mk]
      simp only [Bool.and_eq_true]
      have hslot : ∀ (ri : Rect) (old : Option Node), oWf old = true →
          oWf (sstep ms spans fuel d ri old) = true := by
        intro ri old hold
        unfold sstep
        split
        · simpa [oWf] using wf_subdivide ms spans fuel (mkNode ms (some d) ri)
            (wf_mkNode ms (some d) ri)
        · exact hold
      refine ⟨?_, hslot _ c0 hw0, hslot _ c1 hw1, hslot _ c2 hw2, hslot _ c3 hw3⟩
      simp [nodeOk, Node.ty, ht]

/-- Pruning preserves well-formedness: slots are only cleared or replaced
by the pruned version of their child. -/
theorem wf_prune : ∀ nd : Node, wfB nd = true → wfB (prune nd).1 = true
  | .mk r d t c0 c1 c2 c3 => by
    intro hwf
    by_cases ht : t = NodeType.LEAF
    · rw [prune_leaf ht]
      exact hwf
    · rw [wfB_mk] at hwf
      simp only [Bool.and_eq_true] at hwf
      obtain ⟨hok, hw0, hw1, hw2, hw3⟩ := hwf
      rw [prune_mk r d t c0 c1 c2 c3 ht]
      simp only
      rw [wfB_mk]
      simp only [Bool.and_eq_true]
      have hslot : ∀ (acc : Nat) (o : Option Node), oWf o = true →
          (∀ x, o = some x → wfB (prune x).1 = true) →
          oWf (pruneStep acc (pruneMap o)).1 = true := by
        intro acc o ho ih
        cases o with
        | none => rfl
        | some x =>
          simp only [pruneStep, pruneMap]
          split
          · rfl
          · simpa [oWf] using ih x rfl
      refine ⟨?_,
        hslot _ c0 hw0 (fun x hx => by cases hx; exact wf_prune x hw0),
        hslot _ c1 hw1 (fun x hx => by cases hx; exact wf_prune x hw1),
        hslot _ c2 hw2 (fun x hx => by cases hx; exact wf_prune x hw2),
        hslot _ c3 hw3 (fun x hx => by cases hx; exact wf_prune x hw3)⟩
      simp [nodeOk, Node.ty, ht]

/-- Unfolding of mkNode for a root construction. -/
theorem mkNode_none (ms : ℚ) (r : Rect) :
    mkNode ms none r = .mk r 0 NodeType.ROOT none none none none := rfl

/-- Unfolding of mkNode for a child construction. -/
theorem mkNode_some (ms : ℚ) (d : Nat) (r : Rect) :
    mkNode ms (some d) r =
      .mk r (d + 1)
        (if r.x1 - r.x0 ≤ ms then NodeType.LEAF else NodeType.BRANCH)
        none none none none := rfl

/-- On a well-formed slot, the count returned by prune is the number of
LEAF nodes below the slot. -/
theorem oPruneCount_eq (o : Option Node) (h : oWf o = true) :
    oPruneCount o = (oLeaf o).length := by
  cases o with
  | none => rfl
  | some x => exact prune_count x h



/-- C1: for every non-Leaf node of a well-formed tree (leaves never carry
children, as in every tree the program builds), prune returns the number
of Leaf descendants of the subtree of the node including the node itself,
and a present child slot i is cleared if and only if the cumulative leaf
count accumulated over the slots in order 0, 1, 2, 3 is still exactly
zero once the count of child i has been added. Since the counts are
non-negative, the cumulative count is zero exactly when child i has no
Leaf descendant and no earlier slot contributed a leaf. -/
theorem C1_prune_count_and_slot_rule (nd : Node)
    (hwf : wfB nd = true) (ht : nd.ty ≠ NodeType.LEAF) :
    (prune nd).2 = (leafList nd).length ∧
      ∀ i : Fin 4, (nd.child i).isSome = true →
        (((prune nd).1.child i = none) ↔ cumLeaf nd i = 0) := by
  obtain ⟨r, d, t, c0, c1, c2, c3⟩ := nd
  refine ⟨prune_count _ hwf, ?_⟩
  simp only [Node.ty] at ht
  rw [wfB_mk] at hwf
  simp only [Bool.and_eq_true] at hwf
  obtain ⟨hok, hw0, hw1, hw2, hw3⟩ := hwf
  have e0 := oPruneCount_eq c0 hw0
  have e1 := oPruneCount_eq c1 hw1
  have e2 := oPruneCount_eq c2 hw2
  have e3 := oPruneCount_eq c3 hw3
  intro i hi
  rw [prune_mk r d t c0 c1 c2 c3 ht]
  simp only
  fin_cases i
  · simp only [Node.child, cumLeaf, Node.children, List.take, List.map, List.sum_cons,
      List.sum_nil]
    rw [pruneStep_fst_none]
    rw [e0]
    simp only [Node.child] at hi
    constructor
    · rintro (h | h)
      · rw [h] at hi; simp at hi
      · omega
    · intro h; right; omega
  · simp only [Node.child, cumLeaf, Node.children, List.take, List.map, List.sum_cons,
      List.sum_nil]
    rw [pruneStep_fst_none, pruneStep_snd]
    rw [e0, e1]
    simp only [Node.child] at hi
    constructor
    · rintro (h | h)
      · rw [h] at hi; simp at hi
      · omega
    · intro h; right; omega
  · simp only [Node.child, cumLeaf, Node.children, List.take, List.map, List.sum_cons,
      List.sum_nil]
    rw [pruneStep_fst_none, pruneStep_snd, pruneStep_snd]
    rw [e0, e1, e2]
    simp only [Node.child] at hi
    constructor
    · rintro (h | h)
      · rw [h] at hi; simp at hi
      · omega
    · intro h; right; omega
  · simp only [Node.child, cumLeaf, Node.children, List.take, List.map, List.sum_cons,
      List.sum_nil]
    rw [pruneStep_fst_none, pruneStep_snd, pruneStep_snd, pruneStep_snd]
    rw [e0, e1, e2, e3]
    simp only [Node.child] at hi
    constructor
    · rintro (h | h)
      · rw [h] at hi; simp at hi
      · omega
    · intro h; right; omega

/-- Witness for C1 at a concrete tree: a ROOT with a Leaf child in slot 0
and a childless BRANCH child in slot 3. Both hypotheses hold and the
theorem applies. -/
theorem C1_witness :
    (wfB (Node.mk ⟨0,0,16,16⟩ 0 NodeType.ROOT
        (some (.mk ⟨0,0,4,4⟩ 1 NodeType.LEAF none none none none)) none none
        (some (.mk ⟨8,0,16,8⟩ 1 NodeType.BRANCH none none none none))) = true) ∧
      (Node.mk ⟨0,0,16,16⟩ 0 NodeType.ROOT
        (some (.mk ⟨0,0,4,4⟩ 1 NodeType.LEAF none none none none)) none none
        (some (.mk ⟨8,0,16,8⟩ 1 NodeType.BRANCH none none none none))).ty ≠
          NodeType.LEAF ∧
      ((prune (Node.mk ⟨0,0,16,16⟩ 0 NodeType.ROOT
        (some (.mk ⟨0,0,4,4⟩ 1 NodeType.LEAF none none none none)) none none
        (some (.mk ⟨8,0,16,8⟩ 1 NodeType.BRANCH none none none none)))).2 =
        (leafList (Node.mk ⟨0,0,16,16⟩ 0 NodeType.ROOT
        (some (.mk ⟨0,0,4,4⟩ 1 NodeType.LEAF none none none none)) none none
        (some (.mk ⟨8,0,16,8⟩ 1 NodeType.BRANCH none none none none)))).length ∧
      ∀ i : Fin 4,
        ((Node.mk ⟨0,0,16,16⟩ 0 NodeType.ROOT
        (some (.mk ⟨0,0,4,4⟩ 1 NodeType.LEAF none none none none)) none none
        (some (.mk ⟨8,0,16,8⟩ 1 NodeType.BRANCH none none none none))).child i).isSome =
          true →
        (((prune (Node.mk ⟨0,0,16,16⟩ 0 NodeType.ROOT
        (some (.mk ⟨0,0,4,4⟩ 1 NodeType.LEAF none none none none)) none none
        (some (.mk ⟨8,0,16,8⟩ 1 NodeType.BRANCH none none none none)))).1.child i = none) ↔
          cumLeaf (Node.mk ⟨0,0,16,16⟩ 0 NodeType.ROOT
        (some (.mk ⟨0,0,4,4⟩ 1 NodeType.LEAF none none none none)) none none
        (some (.mk ⟨8,0,16,8⟩ 1 NodeType.BRANCH none none none none))) i = 0)) :=
  ⟨rfl, by simp [Node.ty],
    C1_prune_count_and_slot_rule _ rfl (by simp [Node.ty])⟩

/-- C6: pruning never removes a Leaf node, for every tree: prune returns
the pair of the unchanged node and the count 1 immediately on a Leaf, and
the pre-order list of Leaf nodes of any tree is unchanged by prune, so
every Leaf present before pruning is still present, in the same child
slot of its parent. -/
theorem C6_prune_never_removes_leaf :
    (∀ nd : Node, nd.ty = NodeType.LEAF → prune nd = (nd, 1)) ∧
      (∀ nd : Node, leafList (prune nd).1 = leafList nd) := by
  constructor
  · intro nd h
    obtain ⟨r, d, t, c0, c1, c2, c3⟩ := nd
    simp only [Node.ty] at h
    exact prune_leaf h
  · exact prune_leafList

/-- Witness for C6 at a concrete Leaf node and a concrete two-node tree. -/
theorem C6_witness :
    (Node.mk ⟨0,0,4,4⟩ 1 NodeType.LEAF none none none none).ty = NodeType.LEAF ∧
      prune (Node.mk ⟨0,0,4,4⟩ 1 NodeType.LEAF none none none none) =
        (Node.mk ⟨0,0,4,4⟩ 1 NodeType.LEAF none none none none, 1) ∧
      leafList (prune (Node.mk ⟨0,0,8,8⟩ 0 NodeType.ROOT
          (some (.mk ⟨0,0,4,4⟩ 1 NodeType.LEAF none none none none))
          none none none)).1 =
        leafList (Node.mk ⟨0,0,8,8⟩ 0 NodeType.ROOT
          (some (.mk ⟨0,0,4,4⟩ 1 NodeType.LEAF none none none none))
          none none none) :=
  ⟨rfl,
    C6_prune_never_removes_leaf.1 _ rfl,
    C6_prune_never_removes_leaf.2 _⟩

/-- C8: contains is the closed-interval membership test on both axes, and
the five concrete cases on the rectangle (0,0,4,4) behave as stated. -/
theorem C8_contains_closed_intervals :
    (∀ (nd : Node) (x z : ℚ),
        contains nd x z = true ↔
          (nd.rect.x0 ≤ x ∧ x ≤ nd.rect.x1 ∧ nd.rect.z0 ≤ z ∧ z ≤ nd.rect.z1)) ∧
      contains (.mk ⟨0,0,4,4⟩ 0 NodeType.ROOT none none none none) 0 0 = true ∧
      contains (.mk ⟨0,0,4,4⟩ 0 NodeType.ROOT none none none none) 4 4 = true ∧
      contains (.mk ⟨0,0,4,4⟩ 0 NodeType.ROOT none none none none) 2 2 = true ∧
      contains (.mk ⟨0,0,4,4⟩ 0 NodeType.ROOT none none none none) 5 5 = false ∧
      contains (.mk ⟨0,0,4,4⟩ 0 NodeType.ROOT none none none none) (-1) 2 = false := by
  have hmain : ∀ (nd : Node) (x z : ℚ),
      contains nd x z = true ↔
        (nd.rect.x0 ≤ x ∧ x ≤ nd.rect.x1 ∧ nd.rect.z0 ≤ z ∧ z ≤ nd.rect.z1) := by
    intro nd x z
    constructor
    · intro h
      by_cases hp : (x ≥ nd.rect.x0 ∧ x ≤ nd.rect.x1 ∧ z ≥ nd.rect.z0 ∧ z ≤ nd.rect.z1)
      · exact ⟨hp.1, hp.2.1, hp.2.2.1, hp.2.2.2⟩
      · rw [contains, if_neg hp] at h
        exact absurd h (by simp)
    · intro h
      rw [contains, if_pos ⟨h.1, h.2.1, h.2.2.1, h.2.2.2⟩]
  refine ⟨hmain, ?_, ?_, ?_, ?_, ?_⟩
  · exact (hmain _ _ _).mpr (by norm_num [Node.rect])
  · exact (hmain _ _ _).mpr (by norm_num [Node.rect])
  · exact (hmain _ _ _).mpr (by norm_num [Node.rect])
  · cases hb : contains (.mk ⟨0,0,4,4⟩ 0 NodeType.ROOT none none none none) 5 5 with
    | false => rfl
    | true => exact absurd ((hmain _ _ _).mp hb) (by norm_num [Node.rect])
  · cases hb : contains (.mk ⟨0,0,4,4⟩ 0 NodeType.ROOT none none none none) (-1) 2 with
    | false => rfl
    | true => exact absurd ((hmain _ _ _).mp hb) (by norm_num [Node.rect])

/-- C9: traverse is not idempotent: a second traversal of the same tree
appends a second copy of the pre-order listing to allnodes and a second
copy of the Leaf listing to leaves, so every node of the hierarchy occurs
twice, in two consecutive copies. -/
theorem C9_traverse_not_idempotent (t : Node) :
    (traverse t (traverse t initState)).allnodes = preorder t ++ preorder t ∧
      (traverse t (traverse t initState)).leaves = leafList t ++ leafList t := by
  have h1 := traverse_spec t initState
  have h2 := traverse_spec t (traverse t initState)
  refine ⟨?_, ?_⟩
  · rw [h2.1, h1.1]
    simp [initState]
  · rw [h2.2, h1.2]
    simp [initState]



/-- C10: a node constructed without a parent is always classified ROOT, so
the LEAF base case of subdivide never fires at the root; concretely, the
root of the build over (0,0,4,4) with minimum size 4 (width already at
the minimum) still subdivides into four LEAF children at depth 1. -/
theorem C10_root_always_subdivides :
    (∀ (ms : ℚ) (r : Rect),
        (mkNode ms none r).ty = NodeType.ROOT ∧
          (mkNode ms none r).ty ≠ NodeType.LEAF) ∧
      (quadTree 4 spansTrue 2 (mkNode 4 none ⟨0,0,4,4⟩)).1 =
        Node.mk ⟨0,0,4,4⟩ 0 NodeType.ROOT
          (some (.mk ⟨0,0,2,2⟩ 1 NodeType.LEAF none none none none))
          (some (.mk ⟨0,2,2,4⟩ 1 NodeType.LEAF none none none none))
          (some (.mk ⟨2,2,4,4⟩ 1 NodeType.LEAF none none none none))
          (some (.mk ⟨2,0,4,2⟩ 1 NodeType.LEAF none none none none)) := by
  constructor
  · intro ms r
    exact ⟨rfl, by simp [mkNode_none, Node.ty]⟩
  · norm_num +decide [quadTree, subdivide, prune, pruneStep, traverse, mkNode,
      spansTrue, initState]

/-- Counterexample to the classification clause of C7: the lone node left
by the always-false predicate is the root, and its tag is ROOT, neither
LEAF nor BRANCH, whatever its size. -/
theorem C7_counterexample :
    (mkNode 4 none ⟨0,0,8,8⟩).ty = NodeType.ROOT ∧
      (mkNode 4 none ⟨0,0,8,8⟩).ty ≠ NodeType.LEAF ∧
      (mkNode 4 none ⟨0,0,8,8⟩).ty ≠ NodeType.BRANCH :=
  ⟨rfl, by simp [mkNode_none, Node.ty], by simp [mkNode_none, Node.ty]⟩

/-- C7 (amended): with the default always-false feature predicate the
finished build holds exactly one node, the root, classified ROOT; its
four child slots are absent before pruning and after, pruning removes
nothing, and the node lists hold just the root with no leaves. -/
theorem C7_false_predicate_single_root (ms : ℚ) (r : Rect) (fuel : Nat) :
    quadTree ms spansFalse fuel (mkNode ms none r) =
      (mkNode ms none r, ⟨3, [], [mkNode ms none r]⟩) ∧
      (mkNode ms none r).ty = NodeType.ROOT := by
  refine ⟨?_, rfl⟩
  have hsub : subdivide ms spansFalse fuel (mkNode ms none r) = mkNode ms none r := by
    cases fuel with
    | zero => rfl
    | succ n =>
      rw [mkNode_none,
        subdivide_mk ms spansFalse n r 0 NodeType.ROOT none none none none (by decide)]
      simp [sstep, spansFalse]
  show ((prune (subdivide ms spansFalse fuel (mkNode ms none r))).1,
      traverse (prune (subdivide ms spansFalse fuel (mkNode ms none r))).1 initState) = _
  rw [hsub]
  rfl

/-- Counterexample to the maxdepth clause of C2: in the concrete scenario
the reported maximum depth is 3, the initial value of the class
attribute, not 1, because traverse only raises maxdepth when a leaf is
deeper than the current value and the single leaf sits at depth 1. -/
theorem C2_counterexample :
    (quadTree 4 spansOrigin 2 (mkNode 4 none ⟨0,0,8,8⟩)).2.maxdepth = 3 ∧
      (3 : Nat) ≠ 1 := by
  constructor
  · norm_num +decide [quadTree, subdivide, prune, pruneStep, traverse, mkNode,
      spansOrigin, initState]
  · decide

/-- C2 (amended): root rectangle (0,0,8,8), minimum size 4, predicate true
only for quadrants touching the origin: the root subdivides once, only
the child with rectangle (0,0,4,4) is created, as a LEAF at depth 1, the
other three slots stay absent, the leaf list holds exactly that leaf, the
all-nodes list holds the root and that leaf, and maxdepth stays at its
initial value 3 (not 1 as the claim expected). -/
theorem C2_scenario :
    (quadTree 4 spansOrigin 2 (mkNode 4 none ⟨0,0,8,8⟩)).1 =
        Node.mk ⟨0,0,8,8⟩ 0 NodeType.ROOT
          (some (.mk ⟨0,0,4,4⟩ 1 NodeType.LEAF none none none none))
          none none none ∧
      (quadTree 4 spansOrigin 2 (mkNode 4 none ⟨0,0,8,8⟩)).2.leaves =
        [.mk ⟨0,0,4,4⟩ 1 NodeType.LEAF none none none none] ∧
      (quadTree 4 spansOrigin 2 (mkNode 4 none ⟨0,0,8,8⟩)).2.allnodes =
        [Node.mk ⟨0,0,8,8⟩ 0 NodeType.ROOT
          (some (.mk ⟨0,0,4,4⟩ 1 NodeType.LEAF none none none none))
          none none none,
         .mk ⟨0,0,4,4⟩ 1 NodeType.LEAF none none none none] ∧
      (quadTree 4 spansOrigin 2 (mkNode 4 none ⟨0,0,8,8⟩)).2.maxdepth = 3 := by
  refine ⟨?_, ?_, ?_, ?_⟩ <;>
    norm_num +decide [quadTree, subdivide, prune, pruneStep, traverse, mkNode,
      spansOrigin, initState]

/-- Counterexample to C3: in the build over (0,0,16,16) with minimum size
4 and the three-rectangle predicate, pruning keeps the childless BRANCH
node over (8,0,16,8) because its slot is processed after the leaf-bearing
slot 0, so the all-nodes sequence holds a BRANCH with no present child,
violating the claimed dichotomy. -/
theorem C3_counterexample :
    (quadTree 4 spansThree 3 (mkNode 4 none ⟨0,0,16,16⟩)).2.allnodes =
        [Node.mk ⟨0,0,16,16⟩ 0 NodeType.ROOT
          (some (.mk ⟨0,0,8,8⟩ 1 NodeType.BRANCH
            (some (.mk ⟨0,0,4,4⟩ 2 NodeType.LEAF none none none none))
            none none none))
          none none
          (some (.mk ⟨8,0,16,8⟩ 1 NodeType.BRANCH none none none none)),
         .mk ⟨0,0,8,8⟩ 1 NodeType.BRANCH
           (some (.mk ⟨0,0,4,4⟩ 2 NodeType.LEAF none none none none))
           none none none,
         .mk ⟨0,0,4,4⟩ 2 NodeType.LEAF none none none none,
         .mk ⟨8,0,16,8⟩ 1 NodeType.BRANCH none none none none] ∧
      (Node.mk ⟨8,0,16,8⟩ 1 NodeType.BRANCH none none none none) ∈
        (quadTree 4 spansThree 3 (mkNode 4 none ⟨0,0,16,16⟩)).2.allnodes ∧
      ¬(((Node.mk ⟨8,0,16,8⟩ 1 NodeType.BRANCH none none none none).ty =
            NodeType.LEAF ∧
          presentChildren (.mk ⟨8,0,16,8⟩ 1 NodeType.BRANCH none none none none) = []) ∨
        (((Node.mk ⟨8,0,16,8⟩ 1 NodeType.BRANCH none none none none).ty =
              NodeType.ROOT ∨
            (Node.mk ⟨8,0,16,8⟩ 1 NodeType.BRANCH none none none none).ty =
              NodeType.BRANCH) ∧
          presentChildren (.mk ⟨8,0,16,8⟩ 1 NodeType.BRANCH none none none none) ≠ [])) := by
  have hlist :
      (quadTree 4 spansThree 3 (mkNode 4 none ⟨0,0,16,16⟩)).2.allnodes =
        [Node.mk ⟨0,0,16,16⟩ 0 NodeType.ROOT
          (some (.mk ⟨0,0,8,8⟩ 1 NodeType.BRANCH
            (some (.mk ⟨0,0,4,4⟩ 2 NodeType.LEAF none none none none))
            none none none))
          none none
          (some (.mk ⟨8,0,16,8⟩ 1 NodeType.BRANCH none none none none)),
         .mk ⟨0,0,8,8⟩ 1 NodeType.BRANCH
           (some (.mk ⟨0,0,4,4⟩ 2 NodeType.LEAF none none none none))
           none none none,
         .mk ⟨0,0,4,4⟩ 2 NodeType.LEAF none none none none,
         .mk ⟨8,0,16,8⟩ 1 NodeType.BRANCH none none none none] := by
    norm_num +decide [quadTree, subdivide, prune, pruneStep, traverse, mkNode,
      spansThree, initState]
  refine ⟨hlist, ?_, ?_⟩
  · rw [hlist]
    simp
  · rintro (⟨h1, _⟩ | ⟨_, h2⟩)
    · simp [Node.ty] at h1
    · exact h2 rfl

/-- In a well-formed tree, every node of the pre-order listing is locally
well formed. -/
theorem wf_mem_preorder : ∀ t : Node, wfB t = true → ∀ nd ∈ preorder t, nodeOk nd = true
  | .mk r d t c0 c1 c2 c3 => by
    intro hwf nd hnd
    rw [wfB_mk] at hwf
    simp only [Bool.and_eq_true] at hwf
    obtain ⟨hok, hw0, hw1, hw2, hw3⟩ := hwf
    rw [preorder_mk] at hnd
    simp only [List.mem_cons, List.mem_append] at hnd
    rcases hnd with h | h | h | h | h
    · subst h; exact hok
    · cases c0 with
      | none => simp [opre] at h
      | some x =>
        exact wf_mem_preorder x (by simpa [oWf] using hw0) nd (by simpa [opre] using h)
    · cases c1 with
      | none => simp [opre] at h
      | some x =>
        exact wf_mem_preorder x (by simpa [oWf] using hw1) nd (by simpa [opre] using h)
    · cases c2 with
      | none => simp [opre] at h
      | some x =>
        exact wf_mem_preorder x (by simpa [oWf] using hw2) nd (by simpa [opre] using h)
    · cases c3 with
      | none => simp [opre] at h
      | some x =>
        exact wf_mem_preorder x (by simpa [oWf] using hw3) nd (by simpa [opre] using h)

/-- C3 (amended): after a completed build, every node of the all-nodes
sequence is either a Leaf with no present children, or a Root or Branch
node; because of the slot-order pruning asymmetry a surviving Root or
Branch node can be left with zero present children when a slot processed
before it contributed a leaf, so the claimed "at least one present
child" part does not hold. -/
theorem C3_allnodes_classification (ms : ℚ) (spans : Rect → Bool) (fuel : Nat) (r : Rect) :
    ∀ nd ∈ (quadTree ms spans fuel (mkNode ms none r)).2.allnodes,
      (nd.ty = NodeType.LEAF ∧ presentChildren nd = []) ∨ nd.ty ≠ NodeType.LEAF := by
  intro nd hnd
  have hwf : wfB (prune (subdivide ms spans fuel (mkNode ms none r))).1 = true :=
    wf_prune _ (wf_subdivide ms spans fuel _ (wf_mkNode ms none r))
  have hall : (quadTree ms spans fuel (mkNode ms none r)).2.allnodes =
      preorder (prune (subdivide ms spans fuel (mkNode ms none r))).1 := by
    show (traverse (prune (subdivide ms spans fuel (mkNode ms none r))).1
        initState).allnodes = _
    rw [(traverse_spec _ initState).1]
    simp [initState]
  rw [hall] at hnd
  have hok := wf_mem_preorder _ hwf nd hnd
  by_cases hty : nd.ty = NodeType.LEAF
  · left
    refine ⟨hty, ?_⟩
    simpa [nodeOk, hty] using hok
  · right
    exact hty

/-- Witness for C3 (amended) at the trivial build with the always-false
predicate: the lone root node is in the all-nodes sequence and satisfies
the classification disjunction. -/
theorem C3_allnodes_classification_witness :
    (mkNode 4 none ⟨0,0,8,8⟩) ∈
        (quadTree 4 spansFalse 0 (mkNode 4 none ⟨0,0,8,8⟩)).2.allnodes ∧
      (((mkNode 4 none ⟨0,0,8,8⟩).ty = NodeType.LEAF ∧
          presentChildren (mkNode 4 none ⟨0,0,8,8⟩) = []) ∨
        (mkNode 4 none ⟨0,0,8,8⟩).ty ≠ NodeType.LEAF) := by
  have hmem : (mkNode 4 none ⟨0,0,8,8⟩) ∈
      (quadTree 4 spansFalse 0 (mkNode 4 none ⟨0,0,8,8⟩)).2.allnodes := by
    rw [show (quadTree 4 spansFalse 0 (mkNode 4 none ⟨0,0,8,8⟩)).2.allnodes =
        [mkNode 4 none ⟨0,0,8,8⟩] from rfl]
    simp
  exact ⟨hmem, C3_allnodes_classification 4 spansFalse 0 ⟨0,0,8,8⟩ _ hmem⟩

/-- Counterexample to C4: a build whose root rectangle (0,0,8,1) is
oriented but not square constructs the child rectangle (0,4,4,1), whose
min-y 4 exceeds its max-y 1, because the split point is derived from the
width on both axes. -/
theorem C4_counterexample :
    Rect.Oriented ⟨0,0,8,1⟩ ∧
      (⟨0,4,4,1⟩ : Rect) ∈ rects (subdivide 4 spansTrue 2 (mkNode 4 none ⟨0,0,8,1⟩)) ∧
      ¬ Rect.Oriented ⟨0,4,4,1⟩ := by
  refine ⟨⟨by norm_num, by norm_num⟩, ?_, ?_⟩
  · have hlist : rects (subdivide 4 spansTrue 2 (mkNode 4 none ⟨0,0,8,1⟩)) =
        [⟨0,0,8,1⟩, ⟨0,0,4,4⟩, ⟨0,4,4,1⟩, ⟨4,4,8,1⟩, ⟨4,0,8,4⟩] := by
      norm_num +decide [rects, subdivide, mkNode, spansTrue]
    rw [hlist]
    simp
  · rintro ⟨-, h⟩
    norm_num at h

/-- Each quadrant rectangle produced by splitting a square oriented
rectangle at its half width is itself square and oriented. -/
theorem quadrant_squareOriented {r : Rect} (hsq : r.Square) (hor : r.Oriented) :
    ((⟨r.x0, r.z0, r.x0 + (r.x1 - r.x0) / 2, r.z0 + (r.x1 - r.x0) / 2⟩ : Rect).Square ∧
      (⟨r.x0, r.z0, r.x0 + (r.x1 - r.x0) / 2, r.z0 + (r.x1 - r.x0) / 2⟩ : Rect).Oriented) ∧
    ((⟨r.x0, r.z0 + (r.x1 - r.x0) / 2, r.x0 + (r.x1 - r.x0) / 2, r.z1⟩ : Rect).Square ∧
      (⟨r.x0, r.z0 + (r.x1 - r.x0) / 2, r.x0 + (r.x1 - r.x0) / 2, r.z1⟩ : Rect).Oriented) ∧
    ((⟨r.x0 + (r.x1 - r.x0) / 2, r.z0 + (r.x1 - r.x0) / 2, r.x1, r.z1⟩ : Rect).Square ∧
      (⟨r.x0 + (r.x1 - r.x0) / 2, r.z0 + (r.x1 - r.x0) / 2, r.x1, r.z1⟩ : Rect).Oriented) ∧
    ((⟨r.x0 + (r.x1 - r.x0) / 2, r.z0, r.x1, r.z0 + (r.x1 - r.x0) / 2⟩ : Rect).Square ∧
      (⟨r.x0 + (r.x1 - r.x0) / 2, r.z0, r.x1, r.z0 + (r.x1 - r.x0) / 2⟩ : Rect).Oriented) := by
  obtain ⟨hx, hz⟩ := hor
  unfold Rect.Square at hsq
  refine ⟨⟨?_, ?_, ?_⟩, ⟨?_, ?_, ?_⟩, ⟨?_, ?_, ?_⟩, ⟨?_, ?_, ?_⟩⟩ <;>
    simp only [Rect.Square, Rect.Oriented] <;> linarith

/-- Subdivision preserves the square-and-oriented invariant of every
rectangle of the tree: every rectangle it constructs is square and
oriented whenever every rectangle already present is. -/
theorem rects_subdivide_squareOriented (ms : ℚ) (spans : Rect → Bool) :
    ∀ (fuel : Nat) (nd : Node),
      (∀ rr ∈ rects nd, rr.Square ∧ rr.Oriented) →
      ∀ rr ∈ rects (subdivide ms spans fuel nd), rr.Square ∧ rr.Oriented
  | 0, nd => fun h => h
  | fuel + 1, .mk r d t c0 c1 c2 c3 => by
    intro hinv
    by_cases ht : t = NodeType.LEAF
    · rw [subdivide_leaf ms spans fuel ht]
      exact hinv
    · rw [subdivide_mk ms spans fuel r d t c0 c1 c2 c3 ht]
      simp only
      have hbase : r.Square ∧ r.Oriented := by
        refine hinv r ?_
        rw [rects_mk]
        exact List.mem_cons_self _ _
      have hquad := quadrant_squareOriented hbase.1 hbase.2
      have hslot : ∀ (ri : Rect) (old : Option Node),
          (ri.Square ∧ ri.Oriented) →
          (∀ rr ∈ orects old, rr.Square ∧ rr.Oriented) →
          ∀ rr ∈ orects (sstep ms spans fuel d ri old), rr.Square ∧ rr.Oriented := by
        intro ri old hri hold rr hrr
        unfold sstep at hrr
        split at hrr
        · simp only [orects] at hrr
          refine rects_subdivide_squareOriented ms spans fuel (mkNode ms (some d) ri) ?_ rr hrr
          intro rr2 hrr2
          rw [mkNode_some] at hrr2
          rw [rects_mk] at hrr2
          simp only [orects, List.append_nil] at hrr2
          simp only [List.mem_cons, List.not_mem_nil, or_false] at hrr2
          rw [hrr2]
          exact hri
        · exact hold rr hrr
      intro rr hrr
      rw [rects_mk] at hrr
      simp only [List.mem_cons, List.mem_append] at hrr
      have hold0 : ∀ rr2 ∈ orects c0, rr2.Square ∧ rr2.Oriented := by
        intro rr2 hrr2
        refine hinv rr2 ?_
        rw [rects_mk]
        simp only [List.mem_cons, List.mem_append]
        exact Or.inr (Or.inl hrr2)
      have hold1 : ∀ rr2 ∈ orects c1, rr2.Square ∧ rr2.Oriented := by
        intro rr2 hrr2
        refine hinv rr2 ?_
        rw [rects_mk]
        simp only [List.mem_cons, List.mem_append]
        exact Or.inr (Or.inr (Or.inl hrr2))
      have hold2 : ∀ rr2 ∈ orects c2, rr2.Square ∧ rr2.Oriented := by
        intro rr2 hrr2
        refine hinv rr2 ?_
        rw [rects_mk]
        simp only [List.mem_cons, List.mem_append]
        exact Or.inr (Or.inr (Or.inr (Or.inl hrr2)))
      have hold3 : ∀ rr2 ∈ orects c3, rr2.Square ∧ rr2.Oriented := by
        intro rr2 hrr2
        refine hinv rr2 ?_
        rw [rects_mk]
        simp only [List.mem_cons, List.mem_append]
        exact Or.inr (Or.inr (Or.inr (Or.inr hrr2)))
      rcases hrr with h | h | h | h | h
      · rw [h]; exact hbase
      · exact hslot _ c0 hquad.1 hold0 rr h
      · exact hslot _ c1 hquad.2.1 hold1 rr h
      · exact hslot _ c2 hquad.2.2.1 hold2 rr h
      · exact hslot _ c3 hquad.2.2.2 hold3 rr h

/-- Unfolding of subdivideRects on a non-LEAF node, phrased with the
rstep helper and the four quadrant rectangles in slot order. -/
theorem subdivideRects_mk (ms : ℚ) (spans : Rect → Bool) (fuel : Nat)
    (r : Rect) (d : Nat) (t : NodeType) (c0 c1 c2 c3 : Option Node)
    (h : ¬ t = NodeType.LEAF) :
    subdivideRects ms spans (fuel + 1) (.mk r d t c0 c1 c2 c3) =
      (let hw := (r.x1 - r.x0) / 2
       rstep ms spans fuel d ⟨r.x0, r.z0, r.x0 + hw, r.z0 + hw⟩ ++
        (rstep ms spans fuel d ⟨r.x0, r.z0 + hw, r.x0 + hw, r.z1⟩ ++
         (rstep ms spans fuel d ⟨r.x0 + hw, r.z0 + hw, r.x1, r.z1⟩ ++
          rstep ms spans fuel d ⟨r.x0 + hw, r.z0, r.x1, r.z0 + hw⟩))) := by
  simp [subdivideRects, rstep, h]

/-- For a node whose own rectangle is square and oriented, every
rectangle constructed by subdivide below it, spanning or not, is square
and oriented. -/
theorem subdivideRects_squareOriented (ms : ℚ) (spans : Rect → Bool) :
    ∀ (fuel : Nat) (nd : Node), nd.rect.Square → nd.rect.Oriented →
      ∀ rr ∈ subdivideRects ms spans fuel nd, rr.Square ∧ rr.Oriented
  | 0, nd => by
    intro _ _ rr hrr
    simp [subdivideRects] at hrr
  | fuel + 1, .mk r d t c0 c1 c2 c3 => by
    intro hsq hor rr hrr
    by_cases ht : t = NodeType.LEAF
    · rw [show subdivideRects ms spans (fuel + 1) (.mk r d t c0 c1 c2 c3) = [] from by
        simp [subdivideRects, ht]] at hrr
      simp at hrr
    · rw [subdivideRects_mk ms spans fuel r d t c0 c1 c2 c3 ht] at hrr
      simp only at hrr
      simp only [Node.rect] at hsq hor
      have hquad := quadrant_squareOriented hsq hor
      have hstep : ∀ ri : Rect, ri.Square → ri.Oriented →
          ∀ rr2 ∈ rstep ms spans fuel d ri, rr2.Square ∧ rr2.Oriented := by
        intro ri hsq2 hor2 rr2 hrr2
        unfold rstep at hrr2
        rcases List.mem_cons.mp hrr2 with h | h
        · rw [h]; exact ⟨hsq2, hor2⟩
        · split at h
          · exact subdivideRects_squareOriented ms spans fuel (mkNode ms (some d) ri)
              hsq2 hor2 rr2 h
          · simp at h
      simp only [List.mem_append] at hrr
      rcases hrr with h | h | h | h
      · exact hstep _ hquad.1.1 hquad.1.2 rr h
      · exact hstep _ hquad.2.1.1 hquad.2.1.2 rr h
      · exact hstep _ hquad.2.2.1.1 hquad.2.2.1.2 rr h
      · exact hstep _ hquad.2.2.2.1 hquad.2.2.2.2 rr h

/-- C4 (amended): for a build whose root rectangle is square with
non-negative side, every rectangle ever constructed satisfies the
orientation invariant: the root rectangle the caller constructs, every
quadrant rectangle subdivide constructs (all four are built before the
feature predicate is consulted, whether or not they span a feature), and
the rectangle of every node of the resulting tree. The original claim
fails for oriented but non-square roots, see the counterexample. -/
theorem C4_square_build_oriented (ms : ℚ) (spans : Rect → Bool) (fuel : Nat)
    (x0 z0 s : ℚ) (hs : 0 ≤ s) :
    ∀ rr : Rect,
      (rr = ⟨x0, z0, x0 + s, z0 + s⟩ ∨
        rr ∈ subdivideRects ms spans fuel (mkNode ms none ⟨x0, z0, x0 + s, z0 + s⟩) ∨
        rr ∈ rects (subdivide ms spans fuel (mkNode ms none ⟨x0, z0, x0 + s, z0 + s⟩))) →
      rr.Oriented := by
  have hsq : (⟨x0, z0, x0 + s, z0 + s⟩ : Rect).Square := by
    simp [Rect.Square]
  have hor : (⟨x0, z0, x0 + s, z0 + s⟩ : Rect).Oriented := by
    constructor <;> simp <;> linarith
  intro rr hrr
  rcases hrr with h | h | h
  · rw [h]; exact hor
  · exact (subdivideRects_squareOriented ms spans fuel
      (mkNode ms none ⟨x0, z0, x0 + s, z0 + s⟩) hsq hor rr h).2
  · refine (rects_subdivide_squareOriented ms spans fuel _ ?_ rr h).2
    intro rr2 hrr2
    rw [mkNode_none, rects_mk] at hrr2
    simp only [orects, List.append_nil, List.mem_cons, List.not_mem_nil, or_false] at hrr2
    rw [hrr2]
    exact ⟨hsq, hor⟩

/-- Witness for C4 (amended): in the build over the square root (0,0,8,8)
with the always-false predicate, the quadrant rectangle (0,4,4,8) is
constructed even though it spans no feature and never becomes a node,
and the theorem shows it oriented. -/
theorem C4_square_build_oriented_witness :
    (0 : ℚ) ≤ 8 ∧
      ((⟨0, 4, 4, 8⟩ : Rect) = ⟨0, 0, 0 + 8, 0 + 8⟩ ∨
        (⟨0, 4, 4, 8⟩ : Rect) ∈
          subdivideRects 1 spansFalse 1 (mkNode 1 none ⟨0, 0, 0 + 8, 0 + 8⟩) ∨
        (⟨0, 4, 4, 8⟩ : Rect) ∈
          rects (subdivide 1 spansFalse 1 (mkNode 1 none ⟨0, 0, 0 + 8, 0 + 8⟩))) ∧
      Rect.Oriented ⟨0, 4, 4, 8⟩ := by
  have hlist : subdivideRects 1 spansFalse 1 (mkNode 1 none ⟨0, 0, 0 + 8, 0 + 8⟩) =
      [⟨0, 0, 4, 4⟩, ⟨0, 4, 4, 8⟩, ⟨4, 4, 8, 8⟩, ⟨4, 0, 8, 4⟩] := by
    norm_num +decide [subdivideRects, mkNode, spansFalse]
  have hmem : (⟨0, 4, 4, 8⟩ : Rect) = ⟨0, 0, 0 + 8, 0 + 8⟩ ∨
      (⟨0, 4, 4, 8⟩ : Rect) ∈
        subdivideRects 1 spansFalse 1 (mkNode 1 none ⟨0, 0, 0 + 8, 0 + 8⟩) ∨
      (⟨0, 4, 4, 8⟩ : Rect) ∈
        rects (subdivide 1 spansFalse 1 (mkNode 1 none ⟨0, 0, 0 + 8, 0 + 8⟩)) := by
    right
    left
    rw [hlist]
    simp
  exact ⟨by norm_num, hmem,
    C4_square_build_oriented 1 spansFalse 1 0 0 8 (by norm_num) _ hmem⟩

/-- With the always-true predicate, subdividing a freshly built child node
over a square rectangle of side 2 ^ j times the minimum size produces
exactly 4 ^ j LEAF nodes, given at least j units of fuel. -/
theorem subdivide_true_leafCount (m : ℚ) (hm : 0 < m) :
    ∀ (j fuel : Nat), j ≤ fuel → ∀ (r : Rect) (d : Nat),
      r.x1 = r.x0 + 2 ^ j * m → r.z1 = r.z0 + 2 ^ j * m →
      (leafList (subdivide m spansTrue fuel (mkNode m (some d) r))).length = 4 ^ j
  | 0, fuel => by
    intro _ r d hx _
    have hty : (if r.x1 - r.x0 ≤ m then NodeType.LEAF else NodeType.BRANCH) =
        NodeType.LEAF := by
      rw [if_pos]
      rw [hx]
      norm_num
    rw [mkNode_some, hty]
    cases fuel with
    | zero =>
      rw [show subdivide m spansTrue 0 (.mk r (d+1) NodeType.LEAF none none none none) =
          .mk r (d+1) NodeType.LEAF none none none none from rfl]
      rw [leafList_mk]
      simp [oLeaf]
    | succ n =>
      rw [subdivide_leaf m spansTrue n rfl]
      rw [leafList_mk]
      simp [oLeaf]
  | j + 1, fuel => by
    intro hjf r d hx hz
    obtain ⟨f, rfl⟩ : ∃ f, fuel = f + 1 := ⟨fuel - 1, by omega⟩
    have hjf2 : j ≤ f := by omega
    have h2j : (1 : ℚ) ≤ 2 ^ j := one_le_pow₀ (by norm_num)
    have hty : (if r.x1 - r.x0 ≤ m then NodeType.LEAF else NodeType.BRANCH) =
        NodeType.BRANCH := by
      rw [if_neg]
      rw [hx, pow_succ]
      intro hle
      nlinarith
    rw [mkNode_some, hty]
    rw [subdivide_mk m spansTrue f r (d+1) NodeType.BRANCH none none none none (by decide)]
    simp only [sstep, spansTrue, if_true]
    have hhw : (r.x1 - r.x0) / 2 = 2 ^ j * m := by
      rw [hx, pow_succ]
      ring
    rw [hhw]
    rw [leafList_mk]
    have ih0 := subdivide_true_leafCount m hm j f hjf2
      ⟨r.x0, r.z0, r.x0 + 2 ^ j * m, r.z0 + 2 ^ j * m⟩ (d+1) rfl rfl
    have ih1 := subdivide_true_leafCount m hm j f hjf2
      ⟨r.x0, r.z0 + 2 ^ j * m, r.x0 + 2 ^ j * m, r.z1⟩ (d+1) rfl
      (by show r.z1 = r.z0 + 2 ^ j * m + 2 ^ j * m; rw [hz, pow_succ]; ring)
    have ih2 := subdivide_true_leafCount m hm j f hjf2
      ⟨r.x0 + 2 ^ j * m, r.z0 + 2 ^ j * m, r.x1, r.z1⟩ (d+1)
      (by show r.x1 = r.x0 + 2 ^ j * m + 2 ^ j * m; rw [hx, pow_succ]; ring)
      (by show r.z1 = r.z0 + 2 ^ j * m + 2 ^ j * m; rw [hz, pow_succ]; ring)
    have ih3 := subdivide_true_leafCount m hm j f hjf2
      ⟨r.x0 + 2 ^ j * m, r.z0, r.x1, r.z0 + 2 ^ j * m⟩ (d+1)
      (by show r.x1 = r.x0 + 2 ^ j * m + 2 ^ j * m; rw [hx, pow_succ]; ring)
      rfl
    rw [if_neg (show ¬ NodeType.BRANCH = NodeType.LEAF from by decide)]
    simp only [oLeaf, List.nil_append, List.length_append, ih0, ih1, ih2, ih3]
    ring

/-- C5 (amended): for every square root rectangle of side 2 ^ k times the
minimum size m > 0 with k at least 1, building with the always-true
predicate yields exactly 2 ^ k * 2 ^ k leaves, the number of m-by-m-scale
cells tiling the root. For k = 0 the root still subdivides once (see the
counterexample), so the claim needs k at least 1. -/
theorem C5_true_predicate_tiling (m x0 z0 : ℚ) (k fuel : Nat)
    (hm : 0 < m) (hk : 1 ≤ k) (hfuel : k ≤ fuel) :
    (quadTree m spansTrue fuel
        (mkNode m none ⟨x0, z0, x0 + 2 ^ k * m, z0 + 2 ^ k * m⟩)).2.leaves.length =
      2 ^ k * 2 ^ k := by
  obtain ⟨k1, rfl⟩ : ∃ k1, k = k1 + 1 := ⟨k - 1, by omega⟩
  obtain ⟨f, rfl⟩ : ∃ f, fuel = f + 1 := ⟨fuel - 1, by omega⟩
  have hk1f : k1 ≤ f := by omega
  have hleaves : (quadTree m spansTrue (f + 1)
      (mkNode m none ⟨x0, z0, x0 + 2 ^ (k1 + 1) * m, z0 + 2 ^ (k1 + 1) * m⟩)).2.leaves =
      leafList (subdivide m spansTrue (f + 1)
        (mkNode m none ⟨x0, z0, x0 + 2 ^ (k1 + 1) * m, z0 + 2 ^ (k1 + 1) * m⟩)) := by
    show (traverse (prune (subdivide m spansTrue (f + 1)
        (mkNode m none ⟨x0, z0, x0 + 2 ^ (k1 + 1) * m, z0 + 2 ^ (k1 + 1) * m⟩))).1
        initState).leaves = _
    rw [(traverse_spec _ _).2, prune_leafList]
    simp [initState]
  rw [hleaves]
  rw [mkNode_none]
  rw [subdivide_mk m spansTrue f ⟨x0, z0, x0 + 2 ^ (k1 + 1) * m, z0 + 2 ^ (k1 + 1) * m⟩
    0 NodeType.ROOT none none none none (by decide)]
  simp only [sstep, spansTrue, if_true]
  rw [show ((⟨x0, z0, x0 + 2 ^ (k1 + 1) * m, z0 + 2 ^ (k1 + 1) * m⟩ : Rect).x1 -
      (⟨x0, z0, x0 + 2 ^ (k1 + 1) * m, z0 + 2 ^ (k1 + 1) * m⟩ : Rect).x0) / 2 =
      2 ^ k1 * m from by show (x0 + 2 ^ (k1 + 1) * m - x0) / 2 = _; rw [pow_succ]; ring]
  rw [leafList_mk]
  rw [if_neg (show ¬ NodeType.ROOT = NodeType.LEAF from by decide)]
  have ih0 := subdivide_true_leafCount m hm k1 f hk1f
    ⟨(⟨x0, z0, x0 + 2 ^ (k1 + 1) * m, z0 + 2 ^ (k1 + 1) * m⟩ : Rect).x0,
     (⟨x0, z0, x0 + 2 ^ (k1 + 1) * m, z0 + 2 ^ (k1 + 1) * m⟩ : Rect).z0,
     (⟨x0, z0, x0 + 2 ^ (k1 + 1) * m, z0 + 2 ^ (k1 + 1) * m⟩ : Rect).x0 + 2 ^ k1 * m,
     (⟨x0, z0, x0 + 2 ^ (k1 + 1) * m, z0 + 2 ^ (k1 + 1) * m⟩ : Rect).z0 + 2 ^ k1 * m⟩
    0 rfl rfl
  have ih1 := subdivide_true_leafCount m hm k1 f hk1f
    ⟨(⟨x0, z0, x0 + 2 ^ (k1 + 1) * m, z0 + 2 ^ (k1 + 1) * m⟩ : Rect).x0,
     (⟨x0, z0, x0 + 2 ^ (k1 + 1) * m, z0 + 2 ^ (k1 + 1) * m⟩ : Rect).z0 + 2 ^ k1 * m,
     (⟨x0, z0, x0 + 2 ^ (k1 + 1) * m, z0 + 2 ^ (k1 + 1) * m⟩ : Rect).x0 + 2 ^ k1 * m,
     (⟨x0, z0, x0 + 2 ^ (k1 + 1) * m, z0 + 2 ^ (k1 + 1) * m⟩ : Rect).z1⟩
    0 rfl (by dsimp only; rw [pow_succ]; ring)
  have ih2 := subdivide_true_leafCount m hm k1 f hk1f
    ⟨(⟨x0, z0, x0 + 2 ^ (k1 + 1) * m, z0 + 2 ^ (k1 + 1) * m⟩ : Rect).x0 + 2 ^ k1 * m,
     (⟨x0, z0, x0 + 2 ^ (k1 + 1) * m, z0 + 2 ^ (k1 + 1) * m⟩ : Rect).z0 + 2 ^ k1 * m,
     (⟨x0, z0, x0 + 2 ^ (k1 + 1) * m, z0 + 2 ^ (k1 + 1) * m⟩ : Rect).x1,
     (⟨x0, z0, x0 + 2 ^ (k1 + 1) * m, z0 + 2 ^ (k1 + 1) * m⟩ : Rect).z1⟩
    0 (by dsimp only; rw [pow_succ]; ring)
      (by dsimp only; rw [pow_succ]; ring)
  have ih3 := subdivide_true_leafCount m hm k1 f hk1f
    ⟨(⟨x0, z0, x0 + 2 ^ (k1 + 1) * m, z0 + 2 ^ (k1 + 1) * m⟩ : Rect).x0 + 2 ^ k1 * m,
     (⟨x0, z0, x0 + 2 ^ (k1 + 1) * m, z0 + 2 ^ (k1 + 1) * m⟩ : Rect).z0,
     (⟨x0, z0, x0 + 2 ^ (k1 + 1) * m, z0 + 2 ^ (k1 + 1) * m⟩ : Rect).x1,
     (⟨x0, z0, x0 + 2 ^ (k1 + 1) * m, z0 + 2 ^ (k1 + 1) * m⟩ : Rect).z0 + 2 ^ k1 * m⟩
    0 (by dsimp only; rw [pow_succ]; ring)
      rfl
  simp only [oLeaf, List.nil_append, List.length_append, ih0, ih1, ih2, ih3]
  have : (2 : Nat) ^ (k1 + 1) * 2 ^ (k1 + 1) = 4 ^ (k1 + 1) := by
    rw [← mul_pow]
    norm_num
  rw [this]
  ring

/-- Counterexample to the k = 0 case of C5: with root (0,0,1,1) and
minimum size 1 the side is 2 ^ 0 times the minimum size and one cell
tiles the root, but the build produces 4 leaves, because the root always
subdivides once regardless of its width. -/
theorem C5_counterexample :
    (quadTree 1 spansTrue 1 (mkNode 1 none ⟨0,0,1,1⟩)).2.leaves.length = 4 ∧
      (2 ^ 0 * 2 ^ 0 : Nat) = 1 ∧ (4 : Nat) ≠ 1 := by
  refine ⟨?_, by norm_num, by norm_num⟩
  norm_num +decide [quadTree, subdivide, prune, pruneStep, traverse, mkNode,
    spansTrue, initState]

/-- Witness for C5 (amended) at minimum size 1, k = 1, fuel 1. -/
theorem C5_true_predicate_tiling_witness :
    (0 : ℚ) < 1 ∧ (1 : Nat) ≤ 1 ∧ (1 : Nat) ≤ 1 ∧
      (quadTree 1 spansTrue 1
          (mkNode 1 none ⟨0, 0, 0 + 2 ^ 1 * 1, 0 + 2 ^ 1 * 1⟩)).2.leaves.length =
        2 ^ 1 * 2 ^ 1 :=
  ⟨by norm_num, le_refl 1, le_refl 1,
    C5_true_predicate_tiling 1 0 0 1 1 (by norm_num) (le_refl 1) (le_refl 1)⟩

end quadtree
